import Mathlib

/-!
# Verification of the daily posting slice (`scripts/modern_runner.py`)

Shallow embedding of the packed-decimal (COMP-3) codec, the fixed-width
transaction record codec, and the merge-join posting engine of
`scripts/modern_runner.py`, together with theorems settling the spec claims.

Bytes are modelled as `Nat` (values `< 256` in all real inputs); money values
are unbounded `Int` exactly as Python integers are unbounded.
-/

namespace ModernRunner

/-! ## Decimal digit strings

`digitsOf n` models Python `str(n)` for a non-negative integer `n`, as the
list of decimal digit values, most significant first (`digitsOf 0 = [0]`).
It is written with explicit fuel so that it is structurally recursive and
hence evaluable by `decide`/`rfl`; fuel `n` always suffices.
-/

def digitsOfF : Nat → Nat → List Nat
  | 0, n => [n]
  | fuel+1, n => if n < 10 then [n] else digitsOfF fuel (n / 10) ++ [n % 10]

def digitsOf (n : Nat) : List Nat := digitsOfF n n

/-- Models Python `int(s)` on a string of decimal digits (given as digit
values): fold left, `acc * 10 + d`. -/
def fromDigits (l : List Nat) : Nat := l.foldl (fun acc d => acc * 10 + d) 0

theorem fromDigits_concat (l : List Nat) (d : Nat) :
    fromDigits (l ++ [d]) = fromDigits l * 10 + d := by
  simp [fromDigits, List.foldl_append]

theorem fromDigits_replicate_zero (m : Nat) (l : List Nat) :
    fromDigits (List.replicate m 0 ++ l) = fromDigits l := by
  induction m with
  | zero => simp
  | succ m ih => simpa [fromDigits, List.replicate_succ] using ih

theorem fromDigits_digitsOfF : ∀ (f n : Nat), n ≤ f →
    fromDigits (digitsOfF f n) = n
  | 0, n, h => by
    have : n = 0 := Nat.le_zero.mp h
    subst this; rfl
  | f+1, n, h => by
    by_cases h10 : n < 10
    · simp [digitsOfF, h10, fromDigits]
    · have hrec : n / 10 ≤ f := by
        have := Nat.div_lt_self (by omega : 0 < n) (by omega : 1 < 10)
        omega
      have ih := fromDigits_digitsOfF f (n / 10) hrec
      simp only [digitsOfF, if_neg h10, fromDigits_concat, ih]
      omega

theorem fromDigits_digitsOf (n : Nat) : fromDigits (digitsOf n) = n :=
  fromDigits_digitsOfF n n (Nat.le_refl n)

theorem digitsOfF_lt_ten : ∀ (f n : Nat), n ≤ f →
    ∀ d ∈ digitsOfF f n, d < 10
  | 0, n, h => by
    have : n = 0 := Nat.le_zero.mp h
    subst this; simp [digitsOfF]
  | f+1, n, h => by
    by_cases h10 : n < 10
    · simp [digitsOfF, h10]
    · have hrec : n / 10 ≤ f := by
        have := Nat.div_lt_self (by omega : 0 < n) (by omega : 1 < 10)
        omega
      have ih := digitsOfF_lt_ten f (n / 10) hrec
      simp only [digitsOfF, if_neg h10, List.mem_append, List.mem_singleton]
      rintro d (hd | rfl)
      · exact ih d hd
      · omega

theorem digitsOf_lt_ten (n : Nat) : ∀ d ∈ digitsOf n, d < 10 :=
  digitsOfF_lt_ten n n (Nat.le_refl n)

theorem digitsOfF_length_le : ∀ (f n k : Nat), n ≤ f → 1 ≤ k → n < 10 ^ k →
    (digitsOfF f n).length ≤ k
  | 0, n, k, h, hk, _ => by
    have : n = 0 := Nat.le_zero.mp h
    subst this; simpa [digitsOfF] using hk
  | f+1, n, k, h, hk, hn => by
    by_cases h10 : n < 10
    · simpa [digitsOfF, h10] using hk
    · have hrec : n / 10 ≤ f := by
        have := Nat.div_lt_self (by omega : 0 < n) (by omega : 1 < 10)
        omega
      have hk2 : 2 ≤ k := by
        rcases Nat.lt_or_ge k 2 with hlt | hge
        · interval_cases k; omega
        · exact hge
      have hdiv : n / 10 < 10 ^ (k - 1) := by
        rw [Nat.div_lt_iff_lt_mul (by omega : 0 < 10)]
        have : 10 ^ (k - 1) * 10 = 10 ^ k := by
          rw [← pow_succ]
          congr 1
          omega
        omega
      have ih := digitsOfF_length_le f (n / 10) (k - 1) hrec (by omega) hdiv
      simp only [digitsOfF, if_neg h10, List.length_append, List.length_singleton]
      omega

theorem digitsOf_length_le (n k : Nat) (hk : 1 ≤ k) (hn : n < 10 ^ k) :
    (digitsOf n).length ≤ k :=
  digitsOfF_length_le n n k (Nat.le_refl n) hk hn

theorem digitsOf_single (d : Nat) (hd : d < 10) : digitsOf d = [d] := by
  match d with
  | 0 => rfl
  | d+1 => simp [digitsOf, digitsOfF, hd]

theorem flatMap_digitsOf_self (l : List Nat) (h : ∀ d ∈ l, d < 10) :
    l.flatMap digitsOf = l := by
  induction l with
  | nil => rfl
  | cons d l ih =>
    have hd : d < 10 := h d (by simp)
    simp only [List.flatMap_cons, digitsOf_single d hd, List.singleton_append,
      List.cons.injEq, true_and]
    exact ih (fun x hx => h x (by simp [hx]))

/-! ## COMP-3 packed-decimal codec (`unpack_comp3` / `pack_comp3_fixed`) -/

/-- The nibble sequence of a byte string, high nibble first: models the loop
`for byte in b: nibbles.append((byte >> 4) & 0xF); nibbles.append(byte & 0xF)`. -/
def toNibbles (b : List Nat) : List Nat :=
  b.flatMap (fun byte => [(byte >>> 4) &&& 0xF, byte &&& 0xF])

/-- `unpack_comp3` of `modern_runner.py`: pop the final nibble as the sign
(`0xD` is negative, anything else non-negative), read the remaining nibbles
as a decimal digit string and parse it.  Python's
`"".join(str(x) for x in nibbles)` followed by `int` is modelled by
`fromDigits` of `flatMap digitsOf` (each nibble is `< 16`, and `str` of a
nibble `≥ 10` contributes two digit characters, which `flatMap digitsOf`
reproduces exactly).  Python raises `IndexError` on an empty input (`pop` of
an empty list); the embedding totalises that unreachable case with sign `0`. -/
def unpack_comp3 (b : List Nat) : Int :=
  let nibbles := toNibbles b
  let sign := nibbles.getLastD 0
  let neg := sign == 0xD
  let val : Nat := fromDigits (nibbles.dropLast.flatMap digitsOf)
  if neg then -(val : Int) else (val : Int)

/-- Pack consecutive nibble pairs into bytes, high nibble first: models
`for i in range(0, len(nibbles), 2): out.append((nibbles[i] << 4) | (nibbles[i+1] & 0x0F))`
(the nibble list always has even length at the call site). -/
def packBytes : List Nat → List Nat
  | h :: l :: rest => ((h <<< 4) ||| (l &&& 0x0F)) :: packBytes rest
  | _ => []

/-- `pack_comp3_fixed` of `modern_runner.py`: digits of `|value|` left-padded
with zeros to `total_digits` (Python `rjust` never truncates: a magnitude
with more digits keeps them all), a trailing sign nibble `0xC`/`0xD`, a zero
nibble prepended when the count is odd, packed two nibbles per byte. -/
def pack_comp3_fixed (value_cents : Int) (total_digits : Nat) : List Nat :=
  let neg := value_cents < 0
  let s := digitsOf value_cents.natAbs
  let padded := List.replicate (total_digits - s.length) 0 ++ s
  let nibbles := padded ++ [if neg then 0x0D else 0x0C]
  let nibbles2 := if nibbles.length % 2 == 1 then 0 :: nibbles else nibbles
  packBytes nibbles2

theorem byte_hi : ∀ h < 16, ∀ l < 16,
    ((((h <<< 4) ||| (l &&& 0xF)) >>> 4) &&& 0xF) = h := by decide

theorem byte_lo : ∀ h < 16, ∀ l < 16,
    (((h <<< 4) ||| (l &&& 0xF)) &&& 0xF) = l := by decide

theorem toNibbles_packBytes : ∀ (ns : List Nat), (∀ x ∈ ns, x < 16) →
    ns.length % 2 = 0 → toNibbles (packBytes ns) = ns
  | [], _, _ => rfl
  | [x], _, h => by simp at h
  | h :: l :: rest, hx, he => by
    have hh : h < 16 := hx h (by simp)
    have hl : l < 16 := hx l (by simp)
    have hrest : ∀ x ∈ rest, x < 16 := fun x hxr => hx x (by simp [hxr])
    have herest : rest.length % 2 = 0 := by
      simp only [List.length_cons] at he
      omega
    have ih := toNibbles_packBytes rest hrest herest
    simp only [packBytes, toNibbles, List.flatMap_cons] at ih ⊢
    rw [byte_hi h hh l hl, byte_lo h hh l hl]
    simp [ih]

theorem unpack_packBytes_digits (padded : List Nat) (sign : Nat)
    (hdig : ∀ d ∈ padded, d < 10) (hsgn : sign = 0x0C ∨ sign = 0x0D)
    (heven : (padded.length + 1) % 2 = 0) :
    unpack_comp3 (packBytes (padded ++ [sign]))
      = if sign == 0x0D then -(fromDigits padded : Int) else (fromDigits padded : Int) := by
  have hlt : ∀ x ∈ padded ++ [sign], x < 16 := by
    intro x hx
    rcases List.mem_append.mp hx with h | h
    · exact Nat.lt_trans (hdig x h) (by omega)
    · rcases List.mem_singleton.mp h with rfl
      omega
  have heven' : (padded ++ [sign]).length % 2 = 0 := by
    simpa using heven
  unfold unpack_comp3
  rw [toNibbles_packBytes _ hlt heven']
  simp only [List.getLastD_concat, List.dropLast_concat,
    flatMap_digitsOf_self padded hdig]

/-- **C1** — Packed-decimal round-trip: for every integer `v` whose magnitude
is representable in `D` decimal digits, `D ∈ {11, 13}` (the two field widths
used by the account and transaction layouts), decoding the encoding of `v`
at width `D` returns `v`; this covers `v = 0` and the extreme magnitudes of
both signs. -/
theorem unpack_pack_roundtrip (v : Int) (D : Nat) (hD : D = 11 ∨ D = 13)
    (hv : v.natAbs < 10 ^ D) :
    unpack_comp3 (pack_comp3_fixed v D) = v := by
  have hD1 : 1 ≤ D := by rcases hD with h | h <;> omega
  have hodd : D % 2 = 1 := by rcases hD with h | h <;> simp [h]
  have hslen : (digitsOf v.natAbs).length ≤ D := digitsOf_length_le _ _ hD1 hv
  have hpadlen :
      (List.replicate (D - (digitsOf v.natAbs).length) 0 ++ digitsOf v.natAbs).length
        = D := by
    simp only [List.length_append, List.length_replicate]
    omega
  have hdig : ∀ d ∈ List.replicate (D - (digitsOf v.natAbs).length) 0
      ++ digitsOf v.natAbs, d < 10 := by
    intro d hd
    rcases List.mem_append.mp hd with h | h
    · rcases List.eq_of_mem_replicate h with rfl
      omega
    · exact digitsOf_lt_ten _ d h
  have hsgn : (if v < 0 then 0x0D else 0x0C) = 0x0C
      ∨ (if v < 0 then 0x0D else 0x0C) = 0x0D := by
    split <;> simp
  have heven :
      ((List.replicate (D - (digitsOf v.natAbs).length) 0 ++ digitsOf v.natAbs).length + 1)
        % 2 = 0 := by
    rw [hpadlen]
    omega
  have hparity :
      (((List.replicate (D - (digitsOf v.natAbs).length) 0 ++ digitsOf v.natAbs)
        ++ [if v < 0 then 0x0D else 0x0C]).length % 2 == 1) = false := by
    rw [beq_eq_false_iff_ne]
    simp only [List.length_append, List.length_replicate, List.length_cons,
      List.length_nil]
    omega
  unfold pack_comp3_fixed
  simp only [hparity, Bool.false_eq_true, if_false]
  rw [unpack_packBytes_digits _ _ hdig
    (by rcases hsgn with h | h <;> [exact Or.inl h; exact Or.inr h]) heven]
  rw [fromDigits_replicate_zero, fromDigits_digitsOf]
  rcases Int.lt_or_le v 0 with hneg | hpos
  · rw [if_pos hneg, if_pos (show ((0x0D : Nat) == 0x0D) = true from rfl)]
    omega
  · rw [if_neg (by omega : ¬ v < 0),
      if_neg (show ¬ ((0x0C : Nat) == 0x0D) = true by decide)]
    omega

/-- Witness for `unpack_pack_roundtrip` at `D = 13` and the minimum
representable value `-(10^13 - 1)`. -/
theorem unpack_pack_roundtrip_witness :
    ((13 = 11 ∨ 13 = 13) ∧ (Int.natAbs (-9999999999999) < 10 ^ 13)) ∧
      unpack_comp3 (pack_comp3_fixed (-9999999999999) 13) = -9999999999999 :=
  ⟨⟨Or.inr rfl, by decide⟩,
    unpack_pack_roundtrip (-9999999999999) 13 (Or.inr rfl) (by decide)⟩

/-! ## Data model

`Account` and `Txn` mirror the dictionaries built by `read_accounts` and
`read_txns`: identifier fields are Python strings, monetary fields are
unbounded integers of cents, dates/timestamps are the parsed decimal
numbers, and `RAW` keeps the original 72 record bytes of a transaction. -/

structure Account where
  ACCT_ID : String
  CUST_ID : String
  PRODUCT : String
  STATUS : String
  CURR_BAL : Int
  OD_LIMIT : Int
  OPEN_DATE : Nat
  CLOSE_DATE : Nat
deriving Repr, DecidableEq

structure Txn where
  ACCT_ID : String
  TXN_ID : String
  ORIG_ID : String
  CODE : String
  AMOUNT : Int
  TS : Nat
  CHANNEL : String
  RAW : List Nat
deriving Repr, DecidableEq

/-- `TODAY = 20250101` — the compiled-in as-of date of the slice. -/
def TODAY : Nat := 20250101

/-- `yyyymmdd_from_ts`: integer division strips the `HHMMSS` portion. -/
def yyyymmdd_from_ts (ts : Nat) : Nat := ts / 1000000

/-! ## Sorting

`run_posting` starts with `sorted(accounts, key=...ACCT_ID)` and
`sorted(txns, key=(ACCT_ID, TS, TXN_ID))`.  Python's `sorted` is a stable
sort by the key tuple; `List.insertionSort` with the non-strict
lexicographic key order is extensionally the same stable sort. -/

/-- CPython `str.__lt__`: lexicographic comparison of the code-point
sequences — element-wise, the first differing position decides, and a
proper prefix is smaller.  It is defined directly on the character lists
(rather than through a library order on `String`) so that it is exactly
Python's semantics and is evaluable by `decide`. -/
def pyStrLtData : List Char → List Char → Bool
  | _, [] => false
  | [], _ :: _ => true
  | a :: as, b :: bs =>
    if a = b then pyStrLtData as bs else decide (a.toNat < b.toNat)

/-- Python `s < t` on strings. -/
def strLt (s t : String) : Prop := pyStrLtData s.data t.data = true

instance : DecidableRel strLt := fun _ _ =>
  inferInstanceAs (Decidable (_ = true))

/-- Python `s <= t` on strings (the non-strict companion of `strLt`). -/
def strLe (s t : String) : Prop := strLt s t ∨ s = t

instance : DecidableRel strLe := fun _ _ =>
  inferInstanceAs (Decidable (_ ∨ _))

theorem char_eq_of_toNat_eq {a b : Char} (h : a.toNat = b.toNat) : a = b := by
  apply Char.eq_of_val_eq
  apply UInt32.eq_of_toBitVec_eq
  apply BitVec.eq_of_toNat_eq
  exact h

theorem pyStrLtData_irrefl : ∀ l : List Char, pyStrLtData l l = false
  | [] => rfl
  | a :: as => by simp [pyStrLtData, pyStrLtData_irrefl as]

theorem pyStrLtData_trans (l1 l2 l3 : List Char) (h1 : pyStrLtData l1 l2 = true)
    (h2 : pyStrLtData l2 l3 = true) : pyStrLtData l1 l3 = true := by
  induction l1 generalizing l2 l3 with
  | nil =>
    cases l3 with
    | nil => cases l2 <;> simp [pyStrLtData] at h2
    | cons c cs => simp [pyStrLtData]
  | cons a as ih =>
    cases l2 with
    | nil => simp [pyStrLtData] at h1
    | cons b bs =>
      cases l3 with
      | nil => simp [pyStrLtData] at h2
      | cons c cs =>
        simp only [pyStrLtData] at h1 h2 ⊢
        by_cases hab : a = b
        · subst hab
          by_cases hac : a = c
          · subst hac
            simp only [if_pos rfl] at h1 h2 ⊢
            exact ih bs cs h1 h2
          · simp only [if_pos rfl] at h1
            simp only [if_neg hac] at h2 ⊢
            exact h2
        · simp only [if_neg hab] at h1
          have h1n : a.toNat < b.toNat := of_decide_eq_true h1
          by_cases hbc : b = c
          · subst hbc
            simp only [if_neg hab]
            exact h1
          · simp only [if_neg hbc] at h2
            have h2n : b.toNat < c.toNat := of_decide_eq_true h2
            have hac : a ≠ c := by
              intro h
              subst h
              omega
            simp only [if_neg hac]
            exact decide_eq_true (by omega)

theorem pyStrLtData_trichotomy : ∀ l1 l2 : List Char,
    pyStrLtData l1 l2 = true ∨ l1 = l2 ∨ pyStrLtData l2 l1 = true
  | [], [] => Or.inr (Or.inl rfl)
  | [], _ :: _ => Or.inl rfl
  | _ :: _, [] => Or.inr (Or.inr rfl)
  | a :: as, b :: bs => by
    by_cases hab : a = b
    · subst hab
      rcases pyStrLtData_trichotomy as bs with h | h | h
      · exact Or.inl (by simp [pyStrLtData, h])
      · exact Or.inr (Or.inl (by rw [h]))
      · exact Or.inr (Or.inr (by simp [pyStrLtData, h]))
    · have : a.toNat ≠ b.toNat := fun h => hab (char_eq_of_toNat_eq h)
      rcases Nat.lt_or_ge a.toNat b.toNat with h | h
      · exact Or.inl (by simp [pyStrLtData, hab, h])
      · refine Or.inr (Or.inr ?_)
        have hba : b ≠ a := fun h => hab h.symm
        simp only [pyStrLtData, if_neg hba]
        exact decide_eq_true (by omega)

theorem string_ext {s t : String} (h : s.data = t.data) : s = t := by
  cases s
  cases t
  exact congrArg String.mk h

theorem strLt_trans {s t u : String} (h1 : strLt s t) (h2 : strLt t u) :
    strLt s u :=
  pyStrLtData_trans s.data t.data u.data h1 h2

theorem strLt_irrefl (s : String) : ¬ strLt s s := by
  unfold strLt
  rw [pyStrLtData_irrefl]
  simp

theorem strLt_trichotomy (s t : String) : strLt s t ∨ s = t ∨ strLt t s := by
  rcases pyStrLtData_trichotomy s.data t.data with h | h | h
  · exact Or.inl h
  · exact Or.inr (Or.inl (string_ext h))
  · exact Or.inr (Or.inr h)

theorem strLe_total (s t : String) : strLe s t ∨ strLe t s := by
  rcases strLt_trichotomy s t with h | h | h
  · exact Or.inl (Or.inl h)
  · exact Or.inl (Or.inr h)
  · exact Or.inr (Or.inl h)

theorem strLe_trans {s t u : String} (h1 : strLe s t) (h2 : strLe t u) :
    strLe s u := by
  rcases h1 with h1 | rfl
  · rcases h2 with h2 | rfl
    · exact Or.inl (strLt_trans h1 h2)
    · exact Or.inl h1
  · exact h2

/-- Key order for `sorted(accounts, key=lambda a: a['ACCT_ID'])`. -/
def acctLe (a b : Account) : Prop := strLe a.ACCT_ID b.ACCT_ID

instance : DecidableRel acctLe := fun a b =>
  inferInstanceAs (Decidable (strLe a.ACCT_ID b.ACCT_ID))

instance : IsTotal Account acctLe :=
  ⟨fun a b => strLe_total a.ACCT_ID b.ACCT_ID⟩

instance : IsTrans Account acctLe :=
  ⟨fun _ _ _ h1 h2 => strLe_trans h1 h2⟩

/-- Key order for
`sorted(txns, key=lambda t: (t['ACCT_ID'], t['TS'], t['TXN_ID']))`:
non-strict lexicographic comparison of the key tuples. -/
def txnLe (t1 t2 : Txn) : Prop :=
  strLt t1.ACCT_ID t2.ACCT_ID ∨
    (t1.ACCT_ID = t2.ACCT_ID ∧
      (t1.TS < t2.TS ∨ (t1.TS = t2.TS ∧ strLe t1.TXN_ID t2.TXN_ID)))

instance : DecidableRel txnLe := fun _ _ =>
  inferInstanceAs (Decidable (_ ∨ _))

instance : IsTotal Txn txnLe := by
  constructor
  intro a b
  unfold txnLe
  rcases strLt_trichotomy a.ACCT_ID b.ACCT_ID with h | h | h
  · exact Or.inl (Or.inl h)
  · rcases Nat.lt_trichotomy a.TS b.TS with h2 | h2 | h2
    · exact Or.inl (Or.inr ⟨h, Or.inl h2⟩)
    · rcases strLe_total a.TXN_ID b.TXN_ID with h3 | h3
      · exact Or.inl (Or.inr ⟨h, Or.inr ⟨h2, h3⟩⟩)
      · exact Or.inr (Or.inr ⟨h.symm, Or.inr ⟨h2.symm, h3⟩⟩)
    · exact Or.inr (Or.inr ⟨h.symm, Or.inl h2⟩)
  · exact Or.inr (Or.inl h)

instance : IsTrans Txn txnLe := by
  constructor
  intro a b c hab hbc
  unfold txnLe at *
  rcases hab with hab | ⟨hab, hab2⟩
  · rcases hbc with hbc | ⟨hbc, _⟩
    · exact Or.inl (strLt_trans hab hbc)
    · exact Or.inl (hbc ▸ hab)
  · rcases hbc with hbc | ⟨hbc, hbc2⟩
    · exact Or.inl (hab ▸ hbc)
    · refine Or.inr ⟨hab.trans hbc, ?_⟩
      rcases hab2 with h2 | ⟨h2, h3⟩
      · rcases hbc2 with h4 | ⟨h4, _⟩
        · exact Or.inl (Nat.lt_trans h2 h4)
        · exact Or.inl (h4 ▸ h2)
      · rcases hbc2 with h4 | ⟨h4, h5⟩
        · exact Or.inl (h2 ▸ h4)
        · exact Or.inr ⟨h2.trans h4, strLe_trans h3 h5⟩

/-- `sorted(accounts, key=lambda a: a['ACCT_ID'])`. -/
def sortAccounts (accounts : List Account) : List Account :=
  List.insertionSort acctLe accounts

/-- `sorted(txns, key=lambda t: (t['ACCT_ID'], t['TS'], t['TXN_ID']))`. -/
def sortTxns (txns : List Txn) : List Txn :=
  List.insertionSort txnLe txns

/-! ## The posting engine (`run_posting`) -/

/-- One iteration of the inner consumption loop of `run_posting`: the date
filter (`TS(1:8) == TODAY`) followed by the dispatch on `CODE`.  Returns the
(possibly) updated account and `some t` exactly when the withdrawal guard
fails and `t` is appended to `exc`. -/
def applyTxn (a : Account) (t : Txn) : Account × Option Txn :=
  if yyyymmdd_from_ts t.TS = TODAY then
    if t.CODE = "DEPO" ∨ t.CODE = "FEE " ∨ t.CODE = "INT " then
      ({ a with CURR_BAL := a.CURR_BAL + t.AMOUNT }, none)
    else if t.CODE = "REV " then
      ({ a with CURR_BAL := a.CURR_BAL - t.AMOUNT }, none)
    else if t.CODE = "WDRW" then
      let new_bal := a.CURR_BAL - t.AMOUNT
      let neg_limit := 0 - a.OD_LIMIT
      if new_bal ≥ neg_limit then
        ({ a with CURR_BAL := new_bal }, none)
      else
        (a, some t)
    else
      (a, none)
  else
    (a, none)

/-- The inner `while ... ACCT_ID == a.ACCT_ID` loop applied to the span of
transactions consumed for one account, threading the mutated account and
collecting guard-failure exceptions in encounter order. -/
def applySpan : Account → List Txn → Account × List Txn
  | a, [] => (a, [])
  | a, t :: ts =>
    let r := applyTxn a t
    let rest := applySpan r.1 ts
    (rest.1, r.2.toList ++ rest.2)

/-- The two-pointer merge of `run_posting` over the (sorted) account and
transaction lists: for each account, advance past transactions whose id is
lexicographically smaller (`while txns[ti]['ACCT_ID'] < a['ACCT_ID']`), then
consume the contiguous block of matching transactions
(`while txns[ti]['ACCT_ID'] == a['ACCT_ID']`). -/
def postAll : List Account → List Txn → List Account × List Txn
  | [], _ => ([], [])
  | a :: as, ts =>
    let ts1 := ts.dropWhile (fun t => decide (strLt t.ACCT_ID a.ACCT_ID))
    let span := ts1.takeWhile (fun t => decide (t.ACCT_ID = a.ACCT_ID))
    let rest := ts1.dropWhile (fun t => decide (t.ACCT_ID = a.ACCT_ID))
    let r := applySpan a span
    let rr := postAll as rest
    (r.1 :: rr.1, r.2 ++ rr.2)

/-- `run_posting` of `modern_runner.py`: sort both inputs, run the merge,
return the updated (sorted) accounts and the rejected-withdrawal list. -/
def run_posting (accounts : List Account) (txns : List Txn) :
    List Account × List Txn :=
  postAll (sortAccounts accounts) (sortTxns txns)

/-- **C4** — Packed-decimal encode overflow (code bug): the spec demands an
explicit, checked size-overflow failure when the magnitude needs more than
`D` digits, but `pack_comp3_fixed` has no overflow check at all: at
`value_cents = 10^13`, `total_digits = 13` it silently returns an 8-byte
string (the 13-digit field occupies 7 bytes), without raising and without
truncating — the oversized encoding still decodes back to the value. -/
theorem pack_overflow_unchecked :
    (pack_comp3_fixed (10 ^ 13) 13).length = 8 ∧
      (pack_comp3_fixed (10 ^ 13) 13).length ≠ 7 ∧
      unpack_comp3 (pack_comp3_fixed (10 ^ 13) 13) = 10 ^ 13 := by
  decide

/-- A 6-byte packed field (the 11-digit transaction-amount width) whose
sign nibble is `0xF`, the "unsigned" convention that `unpack_comp3` accepts
as non-negative. -/
def b10 : List Nat := [0x00, 0x00, 0x00, 0x00, 0x01, 0x2F]

/-- **C10** — encode normalises the sign nibble: `pack_comp3_fixed` emits
only `0xC`/`0xD` sign nibbles, so encode-after-decode is not the identity on
bytes: for the field `b10` (valid 6-byte length, final nibble `0xF`, decoded
value `12 ≥ 0`), re-encoding the decoded value yields a same-length field
whose final nibble is `0xC`, different from `b10`. -/
theorem pack_unpack_not_identity :
    b10.length = 6 ∧
      (b10.getLastD 0) &&& 0xF = 0xF ∧
      unpack_comp3 b10 = 12 ∧
      pack_comp3_fixed (unpack_comp3 b10) 11 ≠ b10 ∧
      (pack_comp3_fixed (unpack_comp3 b10) 11).length = 6 ∧
      ((pack_comp3_fixed (unpack_comp3 b10) 11).getLastD 0) &&& 0xF = 0xC := by
  decide

/-- Account and transaction used to witness non-idempotence of re-running. -/
def acct9 : Account :=
  { ACCT_ID := "A001", CUST_ID := "C001", PRODUCT := "CHK ", STATUS := "A"
    CURR_BAL := 0, OD_LIMIT := 5000, OPEN_DATE := 20200101, CLOSE_DATE := 0 }

def txn9 : Txn :=
  { ACCT_ID := "A001", TXN_ID := "T0000000000000001", ORIG_ID := ""
    CODE := "DEPO", AMOUNT := 10000, TS := 20250101120000, CHANNEL := "ATM "
    RAW := [] }

/-- **C9** — re-running is not idempotent: feeding the already-posted
account state back into `run_posting` with the same transaction set
double-applies the credit (`0 → 100.00 → 200.00`), so run-twice differs
from run-once. -/
theorem rerun_not_idempotent :
    run_posting (run_posting [acct9] [txn9]).1 [txn9]
      ≠ run_posting [acct9] [txn9] := by decide

/-! ## Frame properties of the engine -/

/-- Erase the only field the engine may change; two accounts agree on all
other fields iff their `stripBal` images are equal. -/
def stripBal (a : Account) : Account := { a with CURR_BAL := 0 }

theorem stripBal_applyTxn (a : Account) (t : Txn) :
    stripBal (applyTxn a t).1 = stripBal a := by
  simp only [applyTxn]
  split
  · split
    · rfl
    · split
      · rfl
      · split
        · split
          · rfl
          · rfl
        · rfl
  · rfl

theorem stripBal_applySpan : ∀ (ts : List Txn) (a : Account),
    stripBal (applySpan a ts).1 = stripBal a
  | [], _ => rfl
  | t :: ts, a => by
    simp only [applySpan]
    exact (stripBal_applySpan ts (applyTxn a t).1).trans (stripBal_applyTxn a t)

theorem applyTxn_OD (a : Account) (t : Txn) :
    (applyTxn a t).1.OD_LIMIT = a.OD_LIMIT := by
  have h := congrArg Account.OD_LIMIT (stripBal_applyTxn a t)
  exact h

theorem applySpan_OD (ts : List Txn) (a : Account) :
    (applySpan a ts).1.OD_LIMIT = a.OD_LIMIT := by
  have h := congrArg Account.OD_LIMIT (stripBal_applySpan ts a)
  exact h

theorem applySpan_cons (a : Account) (t : Txn) (ts : List Txn) :
    applySpan a (t :: ts)
      = ((applySpan (applyTxn a t).1 ts).1,
          (applyTxn a t).2.toList ++ (applySpan (applyTxn a t).1 ts).2) := rfl

theorem postAll_map_stripBal : ∀ (as : List Account) (ts : List Txn),
    (postAll as ts).1.map stripBal = as.map stripBal
  | [], _ => rfl
  | a :: as, ts => by
    simp only [postAll, List.map_cons]
    rw [stripBal_applySpan, postAll_map_stripBal as _]

/-- **C8** — posting-engine frame: a run returns the account collection
sorted ascending by `ACCT_ID`; modulo the mutable balance the output is
exactly the sorted input (so no account is created or deleted — the output
accounts are a permutation of the input accounts up to balance, in
particular the multiset of account ids is unchanged), and every field other
than `CURR_BAL` is unchanged account-by-account. -/
theorem run_posting_frame (accounts : List Account) (txns : List Txn) :
    (run_posting accounts txns).1.map stripBal
        = (sortAccounts accounts).map stripBal
      ∧ ((run_posting accounts txns).1.map stripBal).Perm
          (accounts.map stripBal)
      ∧ ((run_posting accounts txns).1.map Account.ACCT_ID).Perm
          (accounts.map Account.ACCT_ID)
      ∧ List.Sorted acctLe (run_posting accounts txns).1 := by
  have h1 : (run_posting accounts txns).1.map stripBal
      = (sortAccounts accounts).map stripBal := postAll_map_stripBal _ _
  have hperm : ((run_posting accounts txns).1.map stripBal).Perm
      (accounts.map stripBal) := by
    rw [h1]
    exact (List.perm_insertionSort acctLe accounts).map stripBal
  refine ⟨h1, hperm, ?_, ?_⟩
  · have := hperm.map Account.ACCT_ID
    simpa [List.map_map, Function.comp] using this
  · have hsorted : List.Sorted acctLe (sortAccounts accounts) :=
      List.sorted_insertionSort acctLe accounts
    have h2 : ((sortAccounts accounts).map stripBal).Pairwise acctLe :=
      List.pairwise_map.mpr hsorted
    rw [← h1] at h2
    have h3 : (run_posting accounts txns).1.Pairwise
        (fun a b => acctLe (stripBal a) (stripBal b)) :=
      List.pairwise_map.mp h2
    exact h3

/-! ## Off-date and unknown-code transactions -/

theorem applyTxn_offdate (a : Account) (t : Txn)
    (h : yyyymmdd_from_ts t.TS ≠ TODAY) : applyTxn a t = (a, none) := by
  simp only [applyTxn]
  rw [if_neg h]

/-- **C7** — off-date transactions are passed over (Scenario C): a consumed
transaction whose timestamp date differs from the as-of date, wherever it
sits in an account's consumed span, leaves the whole span result unchanged —
the final account (hence its balance) and the emitted exception list are
exactly those of the span without it, so it is neither applied nor
rejected and appears in neither output. -/
theorem offdate_passed_over (a : Account) (l1 l2 : List Txn) (t : Txn)
    (hoff : yyyymmdd_from_ts t.TS ≠ TODAY) :
    applySpan a (l1 ++ t :: l2) = applySpan a (l1 ++ l2) := by
  induction l1 generalizing a with
  | nil =>
    simp only [List.nil_append, applySpan_cons, applyTxn_offdate a t hoff]
    simp
  | cons x l1 ih =>
    simp only [List.cons_append, applySpan_cons]
    rw [ih]

def acct7 : Account :=
  { ACCT_ID := "A007", CUST_ID := "C007", PRODUCT := "CHK ", STATUS := "A"
    CURR_BAL := 12345, OD_LIMIT := 1000, OPEN_DATE := 20200101, CLOSE_DATE := 0 }

/-- A deposit dated 2024-12-31, i.e. off the as-of date. -/
def txn7off : Txn :=
  { ACCT_ID := "A007", TXN_ID := "T0000000000000007", ORIG_ID := ""
    CODE := "DEPO", AMOUNT := 10000, TS := 20241231235959, CHANNEL := "ATM "
    RAW := [] }

/-- Witness for `offdate_passed_over` at a concrete off-date deposit. -/
theorem offdate_passed_over_witness :
    (yyyymmdd_from_ts txn7off.TS ≠ TODAY) ∧
      applySpan acct7 ([] ++ txn7off :: []) = applySpan acct7 ([] ++ []) :=
  ⟨by decide, offdate_passed_over acct7 [] [] txn7off (by decide)⟩

theorem applyTxn_unknown (a : Account) (t : Txn)
    (h1 : t.CODE ≠ "DEPO") (h2 : t.CODE ≠ "FEE ") (h3 : t.CODE ≠ "INT ")
    (h4 : t.CODE ≠ "REV ") (h5 : t.CODE ≠ "WDRW") :
    applyTxn a t = (a, none) := by
  simp [applyTxn, h1, h2, h3, h4, h5]

/-- **C5 (amended)** — unknown transaction codes are silently dropped: a
consumed transaction whose code is none of `DEPO`/`FEE `/`INT `/`REV `/
`WDRW` leaves the account unchanged and produces no exception entry; since
`run_posting` returns only the accounts and the guard-failure exception
list, there is no output bucket that records it. -/
theorem unknown_code_silently_dropped (a : Account) (t : Txn)
    (h1 : t.CODE ≠ "DEPO") (h2 : t.CODE ≠ "FEE ") (h3 : t.CODE ≠ "INT ")
    (h4 : t.CODE ≠ "REV ") (h5 : t.CODE ≠ "WDRW") :
    applyTxn a t = (a, none) :=
  applyTxn_unknown a t h1 h2 h3 h4 h5

def acct5 : Account :=
  { ACCT_ID := "A005", CUST_ID := "C005", PRODUCT := "CHK ", STATUS := "A"
    CURR_BAL := 1000, OD_LIMIT := 0, OPEN_DATE := 20200101, CLOSE_DATE := 0 }

/-- An on-date transaction with the unknown code `XFER`. -/
def txn5 : Txn :=
  { ACCT_ID := "A005", TXN_ID := "T0000000000000005", ORIG_ID := ""
    CODE := "XFER", AMOUNT := 500, TS := 20250101120000, CHANNEL := "ATM "
    RAW := [] }

/-- **C5 counterexample** — the claim says an unknown-code consumed
transaction is "classified as unclassified/rejected into a distinct,
inspectable output bucket rather than being silently ignored": running the
engine on a matching account and the on-date unknown-code `txn5` leaves the
account untouched and returns an *empty* exception list — the only
rejection bucket the engine has — so the transaction is dropped without
classification. -/
theorem unknown_code_cex :
    run_posting [acct5] [txn5] = ([acct5], []) ∧
      yyyymmdd_from_ts txn5.TS = TODAY ∧
      txn5.ACCT_ID = acct5.ACCT_ID ∧
      txn5.CODE ≠ "DEPO" ∧ txn5.CODE ≠ "FEE " ∧ txn5.CODE ≠ "INT " ∧
      txn5.CODE ≠ "REV " ∧ txn5.CODE ≠ "WDRW" := by decide

def acct5w : Account :=
  { ACCT_ID := "A055", CUST_ID := "C055", PRODUCT := "SAV ", STATUS := "A"
    CURR_BAL := 777, OD_LIMIT := 0, OPEN_DATE := 20200101, CLOSE_DATE := 0 }

def txn5w : Txn :=
  { ACCT_ID := "A055", TXN_ID := "T0000000000000055", ORIG_ID := ""
    CODE := "ZZZZ", AMOUNT := 1, TS := 20250101000001, CHANNEL := "WEB "
    RAW := [] }

/-- Witness for `unknown_code_silently_dropped` at the concrete code `ZZZZ`. -/
theorem unknown_code_silently_dropped_witness :
    (txn5w.CODE ≠ "DEPO" ∧ txn5w.CODE ≠ "FEE " ∧ txn5w.CODE ≠ "INT " ∧
        txn5w.CODE ≠ "REV " ∧ txn5w.CODE ≠ "WDRW") ∧
      applyTxn acct5w txn5w = (acct5w, none) :=
  ⟨by decide,
    unknown_code_silently_dropped acct5w txn5w (by decide) (by decide)
      (by decide) (by decide) (by decide)⟩

/-! ## The overdraft guard (withdrawals) -/

theorem applyTxn_credit (a : Account) (t : Txn)
    (hd : yyyymmdd_from_ts t.TS = TODAY)
    (hc : t.CODE = "DEPO" ∨ t.CODE = "FEE " ∨ t.CODE = "INT ") :
    applyTxn a t = ({ a with CURR_BAL := a.CURR_BAL + t.AMOUNT }, none) := by
  simp only [applyTxn]
  rw [if_pos hd, if_pos hc]

theorem applyTxn_rev (a : Account) (t : Txn)
    (hd : yyyymmdd_from_ts t.TS = TODAY) (hc : t.CODE = "REV ") :
    applyTxn a t = ({ a with CURR_BAL := a.CURR_BAL - t.AMOUNT }, none) := by
  have hnc : ¬(t.CODE = "DEPO" ∨ t.CODE = "FEE " ∨ t.CODE = "INT ") := by
    rw [hc]; decide
  simp only [applyTxn]
  rw [if_pos hd, if_neg hnc, if_pos hc]

theorem applyTxn_wdrw_commit (a : Account) (t : Txn)
    (hd : yyyymmdd_from_ts t.TS = TODAY) (hc : t.CODE = "WDRW")
    (hg : a.CURR_BAL - t.AMOUNT ≥ 0 - a.OD_LIMIT) :
    applyTxn a t = ({ a with CURR_BAL := a.CURR_BAL - t.AMOUNT }, none) := by
  have hnc : ¬(t.CODE = "DEPO" ∨ t.CODE = "FEE " ∨ t.CODE = "INT ") := by
    rw [hc]; decide
  have hnr : t.CODE ≠ "REV " := by rw [hc]; decide
  simp only [applyTxn]
  rw [if_pos hd, if_neg hnc, if_neg hnr, if_pos hc, if_pos hg]

theorem applyTxn_wdrw_reject (a : Account) (t : Txn)
    (hd : yyyymmdd_from_ts t.TS = TODAY) (hc : t.CODE = "WDRW")
    (hg : ¬ a.CURR_BAL - t.AMOUNT ≥ 0 - a.OD_LIMIT) :
    applyTxn a t = (a, some t) := by
  have hnc : ¬(t.CODE = "DEPO" ∨ t.CODE = "FEE " ∨ t.CODE = "INT ") := by
    rw [hc]; decide
  have hnr : t.CODE ≠ "REV " := by rw [hc]; decide
  simp only [applyTxn]
  rw [if_pos hd, if_neg hnc, if_neg hnr, if_pos hc, if_neg hg]

/-- Observer for "the balance changed via a withdrawal": replays the span
with the same step function and reports whether some on-date `WDRW`
transaction passed the guard with a non-zero amount (a committed withdrawal
that changed the balance). -/
def wdrwChangedBal : Account → List Txn → Bool
  | _, [] => false
  | a, t :: ts =>
    (decide (yyyymmdd_from_ts t.TS = TODAY) && decide (t.CODE = "WDRW")
        && decide (a.CURR_BAL - t.AMOUNT ≥ 0 - a.OD_LIMIT)
        && !decide (t.AMOUNT = 0))
      || wdrwChangedBal (applyTxn a t).1 ts

/-- Once the balance is at or above the overdraft floor, a span with no
on-date reversal and only non-negative credit amounts keeps it there. -/
theorem applySpan_keeps_floor : ∀ (ts : List Txn) (a : Account),
    (∀ t ∈ ts, yyyymmdd_from_ts t.TS = TODAY → t.CODE ≠ "REV ") →
    (∀ t ∈ ts, t.CODE = "DEPO" ∨ t.CODE = "FEE " ∨ t.CODE = "INT " →
      0 ≤ t.AMOUNT) →
    0 - a.OD_LIMIT ≤ a.CURR_BAL →
    0 - a.OD_LIMIT ≤ (applySpan a ts).1.CURR_BAL
  | [], _, _, _, h => h
  | t :: ts, a, hrev, hamt, h => by
    rw [applySpan_cons]
    show 0 - a.OD_LIMIT ≤ (applySpan (applyTxn a t).1 ts).1.CURR_BAL
    have hrev' : ∀ u ∈ ts, yyyymmdd_from_ts u.TS = TODAY → u.CODE ≠ "REV " :=
      fun u hu => hrev u (List.mem_cons_of_mem _ hu)
    have hamt' : ∀ u ∈ ts, u.CODE = "DEPO" ∨ u.CODE = "FEE " ∨ u.CODE = "INT " →
        0 ≤ u.AMOUNT := fun u hu => hamt u (List.mem_cons_of_mem _ hu)
    have hfloor : 0 - (applyTxn a t).1.OD_LIMIT ≤ (applyTxn a t).1.CURR_BAL := by
      rw [applyTxn_OD]
      by_cases hd : yyyymmdd_from_ts t.TS = TODAY
      · by_cases hcred : t.CODE = "DEPO" ∨ t.CODE = "FEE " ∨ t.CODE = "INT "
        · rw [applyTxn_credit a t hd hcred]
          have hA : 0 ≤ t.AMOUNT := hamt t (by simp) hcred
          show 0 - a.OD_LIMIT ≤ a.CURR_BAL + t.AMOUNT
          omega
        · by_cases hw : t.CODE = "WDRW"
          · by_cases hg : a.CURR_BAL - t.AMOUNT ≥ 0 - a.OD_LIMIT
            · rw [applyTxn_wdrw_commit a t hd hw hg]
              show 0 - a.OD_LIMIT ≤ a.CURR_BAL - t.AMOUNT
              omega
            · rw [applyTxn_wdrw_reject a t hd hw hg]
              exact h
          · by_cases hr : t.CODE = "REV "
            · exact absurd hr (hrev t (by simp) hd)
            · rw [not_or, not_or] at hcred
              rw [applyTxn_unknown a t hcred.1 hcred.2.1 hcred.2.2 hr hw]
              exact h
      · rw [applyTxn_offdate a t hd]
        exact h
    have := applySpan_keeps_floor ts (applyTxn a t).1 hrev' hamt' hfloor
    rwa [applyTxn_OD] at this

/-- **C2 (amended)** — overdraft guard: after the engine consumes an
account's span, if the balance changed via a committed withdrawal, then —
provided no on-date reversal was consumed for the account and the consumed
credit amounts are non-negative (the spec's stated convention) — the final
balance satisfies `balance ≥ -odLimit`.  (The original claim, without the
no-reversal proviso on withdrawal-touched accounts, is refuted by
`overdraft_guard_cex`: a reversal after a committed withdrawal drives the
balance below the floor.) -/
theorem overdraft_guard_withdrawals : ∀ (ts : List Txn) (a : Account),
    (∀ t ∈ ts, yyyymmdd_from_ts t.TS = TODAY → t.CODE ≠ "REV ") →
    (∀ t ∈ ts, t.CODE = "DEPO" ∨ t.CODE = "FEE " ∨ t.CODE = "INT " →
      0 ≤ t.AMOUNT) →
    wdrwChangedBal a ts = true →
    0 - (applySpan a ts).1.OD_LIMIT ≤ (applySpan a ts).1.CURR_BAL
  | [], _, _, _, hw => by simp [wdrwChangedBal] at hw
  | t :: ts, a, hrev, hamt, hw => by
    rw [applySpan_cons]
    show 0 - ((applySpan (applyTxn a t).1 ts).1).OD_LIMIT
        ≤ ((applySpan (applyTxn a t).1 ts).1).CURR_BAL
    have hrev' : ∀ u ∈ ts, yyyymmdd_from_ts u.TS = TODAY → u.CODE ≠ "REV " :=
      fun u hu => hrev u (List.mem_cons_of_mem _ hu)
    have hamt' : ∀ u ∈ ts, u.CODE = "DEPO" ∨ u.CODE = "FEE " ∨ u.CODE = "INT " →
        0 ≤ u.AMOUNT := fun u hu => hamt u (List.mem_cons_of_mem _ hu)
    rw [applySpan_OD]
    simp only [wdrwChangedBal, Bool.or_eq_true, Bool.and_eq_true,
      decide_eq_true_eq, Bool.not_eq_eq_eq_not, Bool.not_true,
      decide_eq_false_iff_not] at hw
    rcases hw with ⟨⟨⟨hd, hcode⟩, hg⟩, _⟩ | hw
    · rw [applyTxn_wdrw_commit a t hd hcode hg]
      apply applySpan_keeps_floor ts _ hrev' hamt'
      show 0 - a.OD_LIMIT ≤ a.CURR_BAL - t.AMOUNT
      omega
    · have := overdraft_guard_withdrawals ts (applyTxn a t).1 hrev' hamt' hw
      rwa [applySpan_OD] at this

def acct2w : Account :=
  { ACCT_ID := "A002", CUST_ID := "C002", PRODUCT := "CHK ", STATUS := "A"
    CURR_BAL := 10000, OD_LIMIT := 0, OPEN_DATE := 20200101, CLOSE_DATE := 0 }

def txn2w : Txn :=
  { ACCT_ID := "A002", TXN_ID := "T0000000000000021", ORIG_ID := ""
    CODE := "WDRW", AMOUNT := 5000, TS := 20250101100000, CHANNEL := "ATM "
    RAW := [] }

/-- Witness for `overdraft_guard_withdrawals`: a single committed on-date
withdrawal of 50.00 against balance 100.00, overdraft limit 0. -/
theorem overdraft_guard_withdrawals_witness :
    ((∀ t ∈ [txn2w], yyyymmdd_from_ts t.TS = TODAY → t.CODE ≠ "REV ") ∧
        (∀ t ∈ [txn2w], t.CODE = "DEPO" ∨ t.CODE = "FEE " ∨ t.CODE = "INT " →
          0 ≤ t.AMOUNT) ∧
        wdrwChangedBal acct2w [txn2w] = true) ∧
      0 - (applySpan acct2w [txn2w]).1.OD_LIMIT
        ≤ (applySpan acct2w [txn2w]).1.CURR_BAL :=
  ⟨⟨by decide, by decide, by decide⟩,
    overdraft_guard_withdrawals [txn2w] acct2w (by decide) (by decide)
      (by decide)⟩

def acct2c : Account :=
  { ACCT_ID := "A002", CUST_ID := "C002", PRODUCT := "CHK ", STATUS := "A"
    CURR_BAL := 10000, OD_LIMIT := 0, OPEN_DATE := 20200101, CLOSE_DATE := 0 }

/-- On-date withdrawal of 50.00: commits (balance `100.00 → 50.00`). -/
def txn2cW : Txn :=
  { ACCT_ID := "A002", TXN_ID := "T0000000000000022", ORIG_ID := ""
    CODE := "WDRW", AMOUNT := 5000, TS := 20250101100000, CHANNEL := "ATM "
    RAW := [] }

/-- Later on-date reversal of 100.00: unconditional debit
(balance `50.00 → -50.00`). -/
def txn2cR : Txn :=
  { ACCT_ID := "A002", TXN_ID := "T0000000000000023", ORIG_ID :=
      "T0000000000000009"
    CODE := "REV ", AMOUNT := 10000, TS := 20250101110000, CHANNEL := "OPS "
    RAW := [] }

def acct2cOut : Account := { acct2c with CURR_BAL := -5000 }

/-- **C2 counterexample** — the claim as stated ("after a run, every account
whose balance changed via a withdrawal satisfies `balance ≥ -odLimit`") is
false: the account's balance changed via a committed withdrawal during the
run, yet the reversal consumed after it leaves the final balance `-50.00`,
strictly below `-odLimit = 0`. -/
theorem overdraft_guard_cex :
    wdrwChangedBal acct2c (sortTxns [txn2cR, txn2cW]) = true ∧
      run_posting [acct2c] [txn2cR, txn2cW] = ([acct2cOut], []) ∧
      acct2cOut.CURR_BAL < 0 - acct2cOut.OD_LIMIT := by decide

/-! ## Application order (C6) -/

/-- **C6** — application order: in the sorted transaction sequence that
`run_posting` consumes (spans of equal account id are applied left to
right), any two same-account entries appear with non-decreasing
`(TS, TXN_ID)`: the earlier position has a strictly smaller timestamp, or an
equal timestamp and a transaction id that is `≤` in Python's string order —
so distinct timestamps are applied in timestamp order and ties are broken by
ascending transaction id, regardless of the input order. -/
theorem txn_application_order (txns : List Txn)
    (i j : Fin (sortTxns txns).length) (hij : i < j)
    (hacct : ((sortTxns txns).get i).ACCT_ID = ((sortTxns txns).get j).ACCT_ID) :
    ((sortTxns txns).get i).TS < ((sortTxns txns).get j).TS ∨
      (((sortTxns txns).get i).TS = ((sortTxns txns).get j).TS ∧
        strLe ((sortTxns txns).get i).TXN_ID ((sortTxns txns).get j).TXN_ID) := by
  have hsorted : List.Sorted txnLe (sortTxns txns) :=
    List.sorted_insertionSort txnLe txns
  have h := hsorted.rel_get_of_lt hij
  rcases h with h | ⟨_, h⟩
  · rw [hacct] at h
    exact absurd h (strLt_irrefl _)
  · exact h

def txn6a : Txn :=
  { ACCT_ID := "A006", TXN_ID := "T0000000000000061", ORIG_ID := ""
    CODE := "DEPO", AMOUNT := 100, TS := 20250101100000, CHANNEL := "ATM "
    RAW := [] }

def txn6b : Txn :=
  { ACCT_ID := "A006", TXN_ID := "T0000000000000062", ORIG_ID := ""
    CODE := "WDRW", AMOUNT := 200, TS := 20250101110000, CHANNEL := "ATM "
    RAW := [] }

/-- The later-timestamped transaction deliberately placed first in the
input. -/
def txns6 : List Txn := [txn6b, txn6a]

def idx6a : Fin (sortTxns txns6).length := ⟨0, by decide⟩

def idx6b : Fin (sortTxns txns6).length := ⟨1, by decide⟩

/-- Witness for `txn_application_order`: with the later transaction first in
the input, the sorted sequence still applies the earlier timestamp first. -/
theorem txn_application_order_witness :
    (idx6a < idx6b ∧
        ((sortTxns txns6).get idx6a).ACCT_ID
          = ((sortTxns txns6).get idx6b).ACCT_ID) ∧
      (((sortTxns txns6).get idx6a).TS < ((sortTxns txns6).get idx6b).TS ∨
        (((sortTxns txns6).get idx6a).TS = ((sortTxns txns6).get idx6b).TS ∧
          strLe ((sortTxns txns6).get idx6a).TXN_ID
            ((sortTxns txns6).get idx6b).TXN_ID)) :=
  ⟨⟨by decide, by decide⟩,
    txn_application_order txns6 idx6a idx6b (by decide) (by decide)⟩

/-! ## Transaction record codec (`read_txns` / `write_exceptions`)

Byte-level embedding of the 72-byte transaction record: enough of
`read_txns` (one record) and `write_exceptions` (one record) to settle the
byte-identity claim about rejected withdrawals. -/

/-- Python slice `rec[i:j]`. -/
def pySlice (l : List Nat) (i j : Nat) : List Nat := (l.drop i).take (j - i)

/-- `bytes.decode('ascii', 'ignore')`: bytes `≥ 0x80` are dropped, the rest
become their characters. -/
def decodeAsciiIgnore (bs : List Nat) : String :=
  ⟨(bs.filter (fun b => b < 128)).map Char.ofNat⟩

/-- Python `str.rstrip()` (no argument): strip trailing whitespace. -/
def isPySpace (c : Char) : Bool :=
  c = ' ' || c = '\t' || c = '\n' || c = '\r' || c = '\x0b' || c = '\x0c'

def rstrip (s : String) : String :=
  ⟨(s.data.reverse.dropWhile isPySpace).reverse⟩

/-- Python `int(s)` on the all-digits strings found in the numeric text
fields (`int` of the empty string is taken through `or "0"` at the call
sites; on non-digit text CPython raises, a case no record field produces). -/
def parseNat (s : String) : Nat :=
  s.data.foldl (fun acc c => acc * 10 + (c.toNat - 48)) 0

/-- One record of `read_txns`: field slices of the 72-byte record, with the
raw bytes kept in `RAW` "for exception writeback". -/
def read_txn (rec : List Nat) : Txn :=
  { ACCT_ID := rstrip (decodeAsciiIgnore (pySlice rec 0 12))
    TXN_ID := rstrip (decodeAsciiIgnore (pySlice rec 12 28))
    ORIG_ID := rstrip (decodeAsciiIgnore (pySlice rec 28 44))
    CODE := decodeAsciiIgnore (pySlice rec 44 48)
    AMOUNT := unpack_comp3 (pySlice rec 48 54)
    TS := parseNat (decodeAsciiIgnore (pySlice rec 54 68))
    CHANNEL := decodeAsciiIgnore (pySlice rec 68 72)
    RAW := rec }

/-- `s.encode('ascii')[:n].ljust(n, b' ')` of `write_exceptions` (the
strings at the call sites are ASCII, where `encode` is the code points). -/
def ljustTake (s : String) (n : Nat) : List Nat :=
  (s.data.map Char.toNat).take n
    ++ List.replicate (n - ((s.data.map Char.toNat).take n).length) 32

/-- `f"{v:0wd}"` for a non-negative integer: decimal digits left-padded with
`'0'` to width `w`, as ASCII bytes. -/
def fmt0 (v w : Nat) : List Nat :=
  (List.replicate (w - (digitsOf v).length) 0 ++ digitsOf v).map
    (fun d => d + 48)

/-- One record of `write_exceptions`: the 72 output bytes are re-encoded
from the parsed fields (`RAW` is not consulted). -/
def write_exception_record (t : Txn) : List Nat :=
  ljustTake t.ACCT_ID 12 ++ ljustTake t.TXN_ID 16 ++ ljustTake t.ORIG_ID 16
    ++ ljustTake t.CODE 4 ++ pack_comp3_fixed t.AMOUNT 11 ++ fmt0 t.TS 14
    ++ ljustTake t.CHANNEL 4

/-- Helper to spell canonical ASCII record bytes. -/
def strBytes (s : String) : List Nat := s.data.map Char.toNat

/-- A well-formed 72-byte transaction record whose packed amount carries the
`0xF` "unsigned" sign nibble: account `A001`, code `WDRW`, amount 200.00,
timestamp on the as-of date. -/
def recC3 : List Nat :=
  strBytes "A001        " ++ strBytes "T000000000000031"
    ++ strBytes "                " ++ strBytes "WDRW"
    ++ [0x00, 0x00, 0x00, 0x20, 0x00, 0x0F]
    ++ strBytes "20250101120000" ++ strBytes "ATM "

/-- The matching account: balance 100.00, overdraft limit 50.00, so the
200.00 withdrawal fails the guard. -/
def acct3 : Account :=
  { ACCT_ID := "A001", CUST_ID := "C003", PRODUCT := "CHK ", STATUS := "A"
    CURR_BAL := 10000, OD_LIMIT := 5000, OPEN_DATE := 20200101, CLOSE_DATE := 0 }

/-- **C3** — rejected withdrawals are *not* byte-identical (code bug): the
guard fails for the on-date withdrawal parsed from `recC3`, the balance is
unchanged and the transaction is the sole rejected entry, but
`write_exceptions` rebuilds the output record from the parsed fields instead
of the retained `RAW` bytes (despite the reader's comment "keep original raw
bytes for exception writeback"), normalising the amount's `0xF` sign nibble
to `0xC`: the emitted 72 bytes differ from the original record at byte 53. -/
theorem rejected_not_byte_identical :
    run_posting [acct3] [read_txn recC3] = ([acct3], [read_txn recC3]) ∧
      recC3.length = 72 ∧
      (write_exception_record (read_txn recC3)).length = 72 ∧
      write_exception_record (read_txn recC3) ≠ (read_txn recC3).RAW ∧
      (write_exception_record (read_txn recC3)).take 53 = recC3.take 53 ∧
      (write_exception_record (read_txn recC3)).drop 54 = recC3.drop 54 ∧
      (write_exception_record (read_txn recC3)).getD 53 999 = 0x0C ∧
      recC3.getD 53 999 = 0x0F := by decide
